import Mathlib

/-!
Verification development for the streaming JSON-LD expansion core
(`oxjsonld`): the context processing algorithm (`context.rs`), the IRI
expansion subroutine and the push-down expansion state machine
(`expansion.rs`).

The Rust source is embedded shallowly:
* machine state and data types become Lean inductives/structures;
* the mutation of the caller-supplied event/diagnostic buffers becomes the
  lists of events/diagnostics appended during one call;
* Rust panics (`unimplemented!`, `unreachable!`, failing `expect`, and the
  debug-mode `usize` underflow of a refcount decrement) become the
  `.error` case of an `Except String` result carrying the panic message;
* the external `oxiri` IRI library (explicitly out of scope in the
  architecture: IRI syntax validation and resolution are provided by an
  external collaborator) is abstracted as an `IriLib` record of its four
  operations used by the core; theorems either hold for every `IriLib`
  or instantiate the trivial model `idIriLib`.
-/

/-- JSON token (input alphabet), mirroring `json_event_parser::JsonEvent`. -/
inductive JsonEvent where
  | null
  | boolean (b : Bool)
  | number (s : String)
  | string (s : String)
  | startArray
  | endArray
  | startObject
  | endObject
  | objectKey (s : String)
  | eof
deriving DecidableEq

/-- Materialised JSON subtree, mirroring `JsonNode` in `context.rs`.
The Rust `HashMap<String, JsonNode>` object representation becomes an
association list (keys unique, insertion order standing in for the
unspecified hash-map iteration order). -/
inductive JsonNode where
  | string (s : String)
  | number (s : String)
  | boolean (b : Bool)
  | null
  | array (items : List JsonNode)
  | object (entries : List (String × JsonNode))

/-- Term definition, mirroring `JsonLdTermDefinition`. The Rust field
names `prefix` and `protected` are Lean keywords, hence the `Flag`
suffix. -/
structure JsonLdTermDefinition where
  iri_mapping : Option String
  prefixFlag : Bool
  protectedFlag : Bool

/-- Active context, mirroring `JsonLdContext`. `Iri<String>` values are
carried as plain strings (validation belongs to the external IRI
library). The `previous_context` box makes this a nested inductive. -/
inductive JsonLdContext where
  | mk (base_iri : Option String)
       (original_base_url : Option String)
       (vocabulary_mapping : Option String)
       (default_language : Option String)
       (term_definitions : List (String × JsonLdTermDefinition))
       (previous_context : Option JsonLdContext)

def JsonLdContext.base_iri : JsonLdContext → Option String
  | .mk b _ _ _ _ _ => b

def JsonLdContext.original_base_url : JsonLdContext → Option String
  | .mk _ o _ _ _ _ => o

def JsonLdContext.vocabulary_mapping : JsonLdContext → Option String
  | .mk _ _ v _ _ _ => v

def JsonLdContext.default_language : JsonLdContext → Option String
  | .mk _ _ _ d _ _ => d

def JsonLdContext.term_definitions : JsonLdContext → List (String × JsonLdTermDefinition)
  | .mk _ _ _ _ t _ => t

def JsonLdContext.previous_context : JsonLdContext → Option JsonLdContext
  | .mk _ _ _ _ _ p => p

def JsonLdContext.setBaseIri : JsonLdContext → Option String → JsonLdContext
  | .mk _ o v d t p, b => .mk b o v d t p

def JsonLdContext.setVocabularyMapping : JsonLdContext → Option String → JsonLdContext
  | .mk b o _ d t p, v => .mk b o v d t p

def JsonLdContext.setPreviousContext : JsonLdContext → Option JsonLdContext → JsonLdContext
  | .mk b o v d t _, p => .mk b o v d t p

/-- `JsonLdContext::new_empty`: base and original base both set to the
given URL, everything else empty. -/
def JsonLdContext.new_empty (original_base_url : Option String) : JsonLdContext :=
  .mk original_base_url original_base_url none none [] none

/-- `JsonLdContext::default()`: every field at its default. -/
def defaultJsonLdContext : JsonLdContext :=
  .mk none none none none [] none

/-- `JsonLdProcessingMode`. -/
inductive JsonLdProcessingMode where
  | jsonLd1_0
  | jsonLd1_1
deriving DecidableEq

/-- Error codes of `JsonLdErrorCode` reachable from the embedded core. -/
inductive JsonLdErrorCode where
  | invalidLocalContext
  | invalidContextNullification
  | invalidContextEntry
  | invalidVersionValue
  | processingModeConflict
  | invalidBaseIri
  | invalidVocabMapping
  | invalidTypeValue
  | invalidTypedValue
  | invalidValueObject
  | invalidValueObjectValue
  | invalidLanguageTaggedString
  | invalidLanguageTaggedValue
  | collidingKeywords
deriving DecidableEq

/-- A diagnostic (`JsonLdSyntaxError`): message plus optional code.
`msg` constructs one with no code, `msg_and_code` with a code. -/
structure Diag where
  message : String
  code : Option JsonLdErrorCode
deriving DecidableEq

/-- Model of the external `oxiri` IRI library (an out-of-scope external
collaborator per the architecture): checked parse (`Iri::parse`, `none`
standing for `Err`), unchecked parse, checked resolution against a base
and unchecked resolution. -/
structure IriLib where
  parse : String → Option String
  parseUnchecked : String → String
  resolve : String → String → Option String
  resolveUnchecked : String → String → String

/-- Trivial concrete `IriLib` instance: every string is accepted as an
IRI and resolution returns the reference unchanged. Used to close
theorems whose outcome does not depend on the IRI library. -/
def idIriLib : IriLib :=
  { parse := fun s => some s
    parseUnchecked := fun s => s
    resolve := fun _ s => some s
    resolveUnchecked := fun _ s => s }

/-- Association-list lookup, modelling `HashMap::get`. -/
def assocGet {α : Type} : List (String × α) → String → Option α
  | [], _ => none
  | (k, v) :: r, key => if k = key then some v else assocGet r key

/-- Association-list insert, modelling `HashMap::insert` (replaces an
existing binding, otherwise appends). -/
def assocInsert {α : Type} : List (String × α) → String → α → List (String × α)
  | [], key, v => [(key, v)]
  | (k, w) :: r, key, v => if k = key then (key, v) :: r else (k, w) :: assocInsert r key v

/-- `p` is a prefix of `s`, byte/char-wise (`str::starts_with`). -/
def strStarts (s p : String) : Bool :=
  p.data.isPrefixOf s.data

/-- `str::strip_prefix('@')`. -/
def stripAt (s : String) : Option String :=
  match s.data with
  | '@' :: rest => some (String.mk rest)
  | _ => none

/-- All bytes ASCII alphabetic (`u8::is_ascii_alphabetic` over
`str::bytes`); on the char level this coincides with every char being
an ASCII letter, since any non-ASCII char contributes a non-alphabetic
byte. -/
def allAsciiAlpha (s : String) : Bool :=
  s.data.all fun c => ('A' ≤ c && c ≤ 'Z') || ('a' ≤ c && c ≤ 'z')

/-- Helper for `str::split_once(':')` on the char list. -/
def splitOnceAux : List Char → Option (List Char × List Char)
  | [] => none
  | c :: cs =>
    if c = ':' then some ([], cs)
    else
      match splitOnceAux cs with
      | some (p, q) => some (c :: p, q)
      | none => none

/-- `str::split_once(':')`: the part before the first colon and the part
after it. -/
def splitOnceColon (s : String) : Option (String × String) :=
  match splitOnceAux s.data with
  | some (p, q) => some (String.mk p, String.mk q)
  | none => none

/-! ## Context processing algorithm (`context.rs::process_context`) -/

/-- Result of `process_context`: the produced context (or the panic
message of an `unimplemented!()`), together with every diagnostic
appended to the shared buffer before completion or panic. -/
structure PCOut where
  result : Except String JsonLdContext
  errors : List Diag

/-- Diagnostics of step 5.1.1: one `invalid context nullification` per
protected term definition. -/
def protectedDiags : List (String × JsonLdTermDefinition) → List Diag
  | [] => []
  | (name, td) :: r =>
    (if td.protectedFlag then
      [⟨"Definition of " ++ name ++ " will be overridden even if it is protected",
        some .invalidContextNullification⟩]
     else []) ++ protectedDiags r

/-- Step 5.3 diagnostic. -/
def invalidLocalCtxDiag : Diag :=
  ⟨"@context value must be null, a string or an object", some .invalidLocalContext⟩

/-- One key/value entry of an object-shaped local context (the `match
key.as_str()` of steps 5.5-5.13). `.error` is an `unimplemented!()`
panic. -/
def pcKey (lib : IriLib) (mode : JsonLdProcessingMode) (lenient : Bool)
    (remoteContexts : List String) (result : JsonLdContext)
    (key : String) (value : JsonNode) : Except String JsonLdContext × List Diag :=
  if key = "@version" then
    let e1 : List Diag :=
      match value with
      | .number version =>
        if version ≠ "1.1" then
          [⟨"The only supported @version value is 1.1, found " ++ version,
            some .invalidVersionValue⟩]
        else []
      | _ => [⟨"@version value must be a number", some .invalidVersionValue⟩]
    let e2 : List Diag :=
      if mode = .jsonLd1_0 then
        [⟨"@version is only supported in JSON-LD 1.1", some .processingModeConflict⟩]
      else []
    (.ok result, e1 ++ e2)
  else if key = "@import" then
    let e1 : List Diag :=
      if mode = .jsonLd1_0 then
        [⟨"@import is only supported in JSON-LD 1.1", some .invalidContextEntry⟩]
      else []
    (.error "not implemented", e1)
  else if key = "@base" then
    if remoteContexts = [] then
      match value with
      | .null => (.ok (result.setBaseIri none), [])
      | .string v =>
        if lenient then
          (.ok (result.setBaseIri (some
            (match result.base_iri with
             | some b => lib.resolveUnchecked b v
             | none => lib.parseUnchecked v))), [])
        else
          match (match result.base_iri with
                 | some b => lib.resolve b v
                 | none => lib.parse v) with
          | some iri => (.ok (result.setBaseIri (some iri)), [])
          | none => (.ok result, [⟨"Invalid @base " ++ v, some .invalidBaseIri⟩])
      | _ => (.ok result, [⟨"@base value must be a string", some .invalidBaseIri⟩])
    else
      (.ok result, [])
  else if key = "@vocab" then
    match value with
    | .null => (.ok (result.setVocabularyMapping none), [])
    | .string v =>
      if strStarts v "_:" || lenient then
        (.ok (result.setVocabularyMapping (some v)), [])
      else
        match lib.parse v with
        | some _ => (.ok (result.setVocabularyMapping (some v)), [])
        | none => (.ok result, [⟨"Invalid @vocab " ++ v, some .invalidVocabMapping⟩])
    | _ => (.ok result, [⟨"@vocab value must be a string", some .invalidVocabMapping⟩])
  else if key = "@language" then (.error "not implemented", [])
  else if key = "@direction" then (.error "not implemented", [])
  else if key = "@propagate" then (.error "not implemented", [])
  else if key = "@protected" then (.ok result, [])
  else (.error "not implemented", [])

/-- Fold of `pcKey` over the entries of an object-shaped local context,
stopping at the first panic and keeping the diagnostics appended so
far. -/
def pcKeys (lib : IriLib) (mode : JsonLdProcessingMode) (lenient : Bool)
    (remoteContexts : List String) :
    JsonLdContext → List (String × JsonNode) → Except String JsonLdContext × List Diag
  | result, [] => (.ok result, [])
  | result, (k, v) :: r =>
    let r1 := pcKey lib mode lenient remoteContexts result k v
    match r1.1 with
    | .error m => (.error m, r1.2)
    | .ok result2 =>
      let r2 := pcKeys lib mode lenient remoteContexts result2 r
      (r2.1, r1.2 ++ r2.2)

/-- One element of the (normalised) local context sequence: steps
5.1-5.4 plus the per-key loop. -/
def pcElem (lib : IriLib) (mode : JsonLdProcessingMode) (lenient : Bool)
    (remoteContexts : List String) (overrideProtected : Bool)
    (activeContext : JsonLdContext) (result : JsonLdContext)
    (e : JsonNode) : Except String JsonLdContext × List Diag :=
  match e with
  | .null =>
    (.ok (JsonLdContext.new_empty activeContext.original_base_url),
     if !overrideProtected then protectedDiags activeContext.term_definitions else [])
  | .string _ => (.error "not implemented", [])
  | .array _ => (.ok result, [invalidLocalCtxDiag])
  | .number _ => (.ok result, [invalidLocalCtxDiag])
  | .boolean _ => (.ok result, [invalidLocalCtxDiag])
  | .object kvs => pcKeys lib mode lenient remoteContexts result kvs

/-- Fold of `pcElem` over the local context sequence (step 5). -/
def pcElems (lib : IriLib) (mode : JsonLdProcessingMode) (lenient : Bool)
    (remoteContexts : List String) (overrideProtected : Bool)
    (activeContext : JsonLdContext) :
    JsonLdContext → List JsonNode → Except String JsonLdContext × List Diag
  | result, [] => (.ok result, [])
  | result, e :: es =>
    let r1 := pcElem lib mode lenient remoteContexts overrideProtected activeContext result e
    match r1.1 with
    | .error m => (.error m, r1.2)
    | .ok result2 =>
      let r2 := pcElems lib mode lenient remoteContexts overrideProtected activeContext result2 es
      (r2.1, r1.2 ++ r2.2)

/-- The Context Processing Algorithm, `context.rs::process_context`.
The `baseUrl` parameter is carried but (as in the source) never read. -/
def process_context (lib : IriLib) (activeContext : JsonLdContext)
    (localContext : JsonNode) (baseUrl : Option String)
    (remoteContexts : List String) (overrideProtected : Bool)
    (propagate : Bool) (mode : JsonLdProcessingMode) (lenient : Bool) : PCOut :=
  let _ := baseUrl
  let step2 : Bool × List Diag :=
    match localContext with
    | .object kvs =>
      match assocGet kvs "@propagate" with
      | some (.boolean b) => (b, [])
      | some _ => (propagate, [⟨"@propagate value must be a boolean", none⟩])
      | none => (propagate, [])
    | _ => (propagate, [])
  let propagate2 := step2.1
  let result0 :=
    if !propagate2 && (activeContext.previous_context).isNone then
      activeContext.setPreviousContext (some activeContext)
    else activeContext
  let elems : List JsonNode :=
    match localContext with
    | .array cs => cs
    | other => [other]
  let folded := pcElems lib mode lenient remoteContexts overrideProtected activeContext result0 elems
  ⟨folded.1, step2.2 ++ folded.2⟩

/-! ## IRI expansion (`expansion.rs::expand_iri`) -/

/-- Result of IRI expansion: a resolved IRI or a recognised keyword. -/
inductive JsonLdIdOrKeyword where
  | id (s : String)
  | keyword (s : String)

/-- The reserved-keyword table of step 1 of `expand_iri`: the `match
suffix` arm returning `Keyword(suffix)` for the 23 reserved names. -/
def matchKeyword (suffix : String) : Option String :=
  if suffix = "base" then some "base"
  else if suffix = "container" then some "container"
  else if suffix = "context" then some "context"
  else if suffix = "direction" then some "direction"
  else if suffix = "graph" then some "graph"
  else if suffix = "id" then some "id"
  else if suffix = "import" then some "import"
  else if suffix = "included" then some "included"
  else if suffix = "index" then some "index"
  else if suffix = "json" then some "json"
  else if suffix = "language" then some "language"
  else if suffix = "list" then some "list"
  else if suffix = "nest" then some "nest"
  else if suffix = "none" then some "none"
  else if suffix = "prefix" then some "prefix"
  else if suffix = "propagate" then some "propagate"
  else if suffix = "protected" then some "protected"
  else if suffix = "reverse" then some "reverse"
  else if suffix = "set" then some "set"
  else if suffix = "type" then some "type"
  else if suffix = "value" then some "value"
  else if suffix = "version" then some "version"
  else if suffix = "vocab" then some "vocab"
  else none

/-- Steps 1-2 of `expand_iri` (the `@`-prefix handling, which runs
before the active context is consulted). `some r` is an early return of
`r`; `none` means fall through to the context-dependent steps with the
original string. -/
def expandIriAt (value : String) : Option (Option JsonLdIdOrKeyword) :=
  match stripAt value with
  | none => none
  | some suffix =>
    match matchKeyword suffix with
    | some kw => some (some (.keyword kw))
    | none => if allAsciiAlpha suffix then some none else none

/-- Step 8 and the final fallback of `expand_iri`: document-relative
resolution against the base IRI (with the source's double resolution in
the checked branch), else the string itself. -/
def expandIriDocRel (lib : IriLib) (lenient : Bool) (ctx : JsonLdContext)
    (value : String) (documentRelative : Bool) : JsonLdIdOrKeyword :=
  if documentRelative then
    match ctx.base_iri with
    | some base =>
      if lenient then .id (lib.resolveUnchecked base value)
      else
        match lib.resolve base value with
        | some r => .id (lib.resolveUnchecked base r)
        | none => .id value
    | none => .id value
  else .id value

/-- Steps 7, 8 and the final fallback of `expand_iri`: vocabulary
mapping, document-relative resolution, identity. -/
def expandIriTail (lib : IriLib) (lenient : Bool) (ctx : JsonLdContext)
    (value : String) (documentRelative vocab : Bool) : JsonLdIdOrKeyword :=
  if vocab then
    match ctx.vocabulary_mapping with
    | some vm => .id (vm ++ value)
    | none => expandIriDocRel lib lenient ctx value documentRelative
  else expandIriDocRel lib lenient ctx value documentRelative

/-- Steps 3-8 of `expand_iri` (everything after the `@` handling; this
part reads the active context). Note that step 6.4 looks the whole
`value` up in `term_definitions`, exactly as the source does. -/
def expandIriRest (lib : IriLib) (lenient : Bool) (ctx : JsonLdContext)
    (value : String) (documentRelative vocab : Bool) : JsonLdIdOrKeyword :=
  let step6 : JsonLdIdOrKeyword :=
    match splitOnceColon value with
    | some ps =>
      if ps.1 = "_" || strStarts ps.2 "//" then .id value
      else
        let after64 : JsonLdIdOrKeyword :=
          if (lib.parse value).isSome then .id value
          else expandIriTail lib lenient ctx value documentRelative vocab
        match assocGet ctx.term_definitions value with
        | some td =>
          match td.iri_mapping with
          | some im => if td.prefixFlag then .id (im ++ ps.2) else after64
          | none => after64
        | none => after64
    | none => expandIriTail lib lenient ctx value documentRelative vocab
  match assocGet ctx.term_definitions value with
  | some td =>
    match td.iri_mapping with
    | some im =>
      match stripAt im with
      | some kw => .keyword kw
      | none => if vocab then .id im else step6
    | none => step6
  | none => step6

/-- The IRI Expansion subroutine, `expansion.rs::expand_iri`, as a
function of the active context and the `lenient` flag of the converter.
`none` models the silent drop of an unrecognised keyword-like string. -/
def expand_iri (lib : IriLib) (lenient : Bool) (ctx : JsonLdContext)
    (value : String) (documentRelative vocab : Bool) : Option JsonLdIdOrKeyword :=
  match expandIriAt value with
  | some r => r
  | none => some (expandIriRest lib lenient ctx value documentRelative vocab)

/-! ## Expansion state machine (`expansion.rs::JsonLdExpansionConverter`) -/

/-- Emitted event, mirroring `JsonLdEvent`. -/
inductive JsonLdValue where
  | string (s : String)
  | number (s : String)
  | boolean (b : Bool)
deriving DecidableEq

inductive JsonLdEvent where
  | startObject (types : List String)
  | endObject
  | startProperty (iri : String)
  | endProperty
  | id (iri : String)
  | value (value : JsonLdValue) (type : Option String) (language : Option String)
deriving DecidableEq

/-- `JsonLdExpansionStateAfterToNode`. -/
inductive AfterToNode where
  | context

/-- Expansion state, mirroring `JsonLdExpansionState`. -/
inductive ExpState where
  | element
  | elementArray
  | objectStart (types : List String) (id : Option String)
  | objectType (types : List String) (id : Option String)
  | objectTypeArray (types : List String) (id : Option String)
  | objectId (types : List String) (id : Option String) (from_start : Bool)
  | object (in_property : Bool)
  | value (type : Option String) (value : Option JsonLdValue) (language : Option String)
  | valueValue (type : Option String) (language : Option String)
  | valueLanguage (type : Option String) (value : Option JsonLdValue)
  | valueType (value : Option JsonLdValue) (language : Option String)
  | toNode (stack : List JsonNode) (current_key : Option String) (end_state : AfterToNode)
  | skip
  | skipArray

/-- The converter, mirroring `JsonLdExpansionConverter`. The head of
each list is the top of the corresponding Rust `Vec`. -/
structure JsonLdExpansionConverter where
  state : List ExpState
  context : List (JsonLdContext × Nat)
  is_end : Bool
  lenient : Bool

/-- `JsonLdExpansionConverter::new`: one `Element` state and one context
stack entry. Note the source initialises the entry refcount to `0`. -/
def JsonLdExpansionConverter.new (base_url : Option String) (lenient : Bool) :
    JsonLdExpansionConverter :=
  ⟨[.element], [(JsonLdContext.new_empty base_url, 0)], false, lenient⟩

/-- The effect of one `convert_event` call: the updated converter (or a
panic message), the events appended to `results` and the diagnostics
appended to `errors` before return or panic. -/
structure StepOut where
  result : Except String JsonLdExpansionConverter
  events : List JsonLdEvent
  errors : List Diag

/-- `push_same_context`: increment the refcount of the top context stack
entry; `none` is the panic on an empty stack. -/
def pushSameContext : List (JsonLdContext × Nat) → Option (List (JsonLdContext × Nat))
  | [] => none
  | (ctx, n) :: r => some ((ctx, n + 1) :: r)

/-- `pop_context`: pop the top entry, decrement its refcount, push it
back if the count is still positive. The `.error` cases are the panic
on an empty stack and the debug-mode panic of the `usize` decrement
when the refcount is already zero. -/
def popContextStack : List (JsonLdContext × Nat) →
    Except String (List (JsonLdContext × Nat))
  | [] => .error "The context stack must not be empty"
  | (ctx, n) :: r =>
    if n = 0 then .error "attempt to subtract with overflow"
    else if n - 1 > 0 then .ok ((ctx, n - 1) :: r) else .ok r

/-- `self.expand_iri` as called from `convert_event`: the `@` handling
runs first; only the fall-through path reads the top of the context
stack (panicking when it is empty, as `self.context()` does). -/
def JsonLdExpansionConverter.expandIriC (lib : IriLib)
    (c : JsonLdExpansionConverter) (value : String)
    (documentRelative vocab : Bool) : Except String (Option JsonLdIdOrKeyword) :=
  match expandIriAt value with
  | some r => .ok r
  | none =>
    match c.context with
    | (ctx, _) :: _ => .ok (some (expandIriRest lib c.lenient ctx value documentRelative vocab))
    | [] => .error "The context stack must not be empty"

/-- The diagnostic emitted for a non-string `@id` value (lines 367-401
of `expansion.rs`); note its code is `invalid language-tagged string`. -/
def idMustBeString : Diag :=
  ⟨"@id value must be a string", some .invalidLanguageTaggedString⟩

def isStringValue : JsonLdValue → Bool
  | .string _ => true
  | _ => false

/-- `Element` / `ElementArray` handling (`isArr` true for the array
variant, which re-pushes itself on every item). -/
def elementStep (c : JsonLdExpansionConverter) (isArr : Bool)
    (e : JsonEvent) : StepOut :=
  let re : List ExpState := if isArr then [.elementArray] else []
  match e with
  | .null => ⟨.ok { c with state := re ++ c.state }, [], []⟩
  | .string v => ⟨.ok { c with state := re ++ c.state }, [.value (.string v) none none], []⟩
  | .number v => ⟨.ok { c with state := re ++ c.state }, [.value (.number v) none none], []⟩
  | .boolean b => ⟨.ok { c with state := re ++ c.state }, [.value (.boolean b) none none], []⟩
  | .startArray => ⟨.ok { c with state := .elementArray :: (re ++ c.state) }, [], []⟩
  | .endArray => ⟨.ok c, [], []⟩
  | .startObject =>
    match pushSameContext c.context with
    | none => ⟨.error "The context stack must not be empty", [], []⟩
    | some ctxs =>
      ⟨.ok { c with context := ctxs,
                    state := .objectStart [] none :: (re ++ c.state) }, [], []⟩
  | .endObject => ⟨.error "unreachable", [], []⟩
  | .objectKey _ => ⟨.error "unreachable", [], []⟩
  | .eof => ⟨.error "unreachable", [], []⟩

/-- `ObjectStart` handling. -/
def objectStartStep (lib : IriLib) (c : JsonLdExpansionConverter)
    (types : List String) (id : Option String) (e : JsonEvent) : StepOut :=
  match e with
  | .objectKey key =>
    match c.expandIriC lib key false true with
    | .error m => ⟨.error m, [], []⟩
    | .ok none => ⟨.ok { c with state := .skip :: .objectStart types id :: c.state }, [], []⟩
    | .ok (some (.id i)) =>
      ⟨.ok { c with state := .element :: .object true :: c.state },
       [.startObject types, .startProperty i], []⟩
    | .ok (some (.keyword kw)) =>
      if kw = "context" then
        ⟨.ok { c with state := .toNode [] none .context :: c.state }, [], []⟩
      else if kw = "type" then
        ⟨.ok { c with state := .objectType types id :: c.state }, [], []⟩
      else if kw = "value" then
        ⟨.ok { c with state := .valueValue none none :: c.state }, [],
         if types.length > 1 then
           [⟨"Only a single @type is allowed when @value is present", some .invalidTypedValue⟩]
         else []⟩
      else if kw = "language" then
        ⟨.ok { c with state := .valueLanguage none none :: c.state }, [],
         if types.length > 1 then
           [⟨"Only a single @language is allowed", some .collidingKeywords⟩]
         else []⟩
      else if kw = "id" then
        ⟨.ok { c with state := .objectId types id true :: c.state }, [],
         if id.isSome then
           [⟨"Only a single @id is allowed", some .collidingKeywords⟩]
         else []⟩
      else
        ⟨.ok { c with state := .skip :: .objectStart types id :: c.state }, [],
         [⟨"Unsupported JSON-LD keyword: @" ++ kw, none⟩]⟩
  | .endObject =>
    let evs : List JsonLdEvent :=
      .startObject types :: ((match id with | some i => [.id i] | none => []) ++ [.endObject])
    match popContextStack c.context with
    | .error m => ⟨.error m, evs, []⟩
    | .ok ctxs => ⟨.ok { c with context := ctxs }, evs, []⟩
  | _ => ⟨.error "Inside of an object", [], []⟩

/-- `ObjectType` / `ObjectTypeArray` handling. -/
def objectTypeStep (lib : IriLib) (c : JsonLdExpansionConverter)
    (types : List String) (id : Option String) (isArr : Bool)
    (e : JsonEvent) : StepOut :=
  match e with
  | .null | .number _ | .boolean _ =>
    ⟨.ok { c with state :=
        (if isArr then ExpState.objectTypeArray types id else .objectStart types id) :: c.state },
     [], [⟨"@type value must be a string", some .invalidTypeValue⟩]⟩
  | .string v =>
    match c.expandIriC lib v false true with
    | .error m => ⟨.error m, [], []⟩
    | .ok r =>
      let types2 := match r with | some (.id i) => types ++ [i] | _ => types
      let errs : List Diag :=
        match r with
        | some (.keyword kw) => [⟨"@" ++ kw ++ " is not a valid value for @type", none⟩]
        | _ => []
      ⟨.ok { c with state :=
          (if isArr then ExpState.objectTypeArray types2 id else .objectStart types2 id) :: c.state },
       [], errs⟩
  | .startArray =>
    if isArr then
      ⟨.ok { c with state := .skipArray :: .objectTypeArray types id :: c.state },
       [], [⟨"@type cannot contain a nested array", some .invalidTypeValue⟩]⟩
    else
      ⟨.ok { c with state := .objectTypeArray types id :: c.state }, [], []⟩
  | .endArray =>
    ⟨.ok { c with state := .objectStart types id :: c.state }, [], []⟩
  | .startObject =>
    ⟨.ok { c with state := .skip ::
        (if isArr then ExpState.objectTypeArray types id else .objectStart types id) :: c.state },
     [], [⟨"@type value must be a string", some .invalidTypeValue⟩]⟩
  | _ => ⟨.error "unreachable", [], []⟩

/-- `ObjectId` handling. -/
def objectIdStep (lib : IriLib) (c : JsonLdExpansionConverter)
    (types : List String) (id : Option String) (from_start : Bool)
    (e : JsonEvent) : StepOut :=
  match e with
  | .string newId =>
    match c.expandIriC lib newId true false with
    | .error m => ⟨.error m, [], []⟩
    | .ok r =>
      let id2 : Option String := match r with | some (.id ni) => some ni | _ => id
      let errs : List Diag :=
        match r with
        | some (.keyword _) => [⟨"@id value must be an IRI or a blank node", none⟩]
        | _ => []
      if from_start then
        ⟨.ok { c with state := .objectStart types id2 :: c.state }, [], errs⟩
      else
        ⟨.ok { c with state := .object false :: c.state },
         (match id2 with | some i => [.id i] | none => []), errs⟩
  | .null | .number _ | .boolean _ =>
    ⟨.ok { c with state :=
        (if from_start then ExpState.objectStart types id else .object false) :: c.state },
     [], [idMustBeString]⟩
  | .startArray =>
    ⟨.ok { c with state := .skipArray ::
        (if from_start then ExpState.objectStart types id else .object false) :: c.state },
     [], [idMustBeString]⟩
  | .startObject =>
    ⟨.ok { c with state := .skip ::
        (if from_start then ExpState.objectStart types id else .object false) :: c.state },
     [], [idMustBeString]⟩
  | _ => ⟨.error "unreachable", [], []⟩

/-- `Object` handling. The `EndProperty` event is emitted before the
token is examined, exactly as in the source. -/
def objectStep (lib : IriLib) (c : JsonLdExpansionConverter)
    (in_property : Bool) (e : JsonEvent) : StepOut :=
  let pre : List JsonLdEvent := if in_property then [.endProperty] else []
  match e with
  | .endObject =>
    match popContextStack c.context with
    | .error m => ⟨.error m, pre ++ [.endObject], []⟩
    | .ok ctxs => ⟨.ok { c with context := ctxs }, pre ++ [.endObject], []⟩
  | .objectKey key =>
    match c.expandIriC lib key false true with
    | .error m => ⟨.error m, pre, []⟩
    | .ok none => ⟨.ok { c with state := .skip :: .object false :: c.state }, pre, []⟩
    | .ok (some (.id i)) =>
      ⟨.ok { c with state := .element :: .object true :: c.state },
       pre ++ [.startProperty i], []⟩
    | .ok (some (.keyword kw)) =>
      if kw = "id" then
        ⟨.ok { c with state := .objectId [] none false :: c.state }, pre, []⟩
      else
        ⟨.ok { c with state := .skip :: .object false :: c.state }, pre,
         [⟨"Unsupported keyword: " ++ kw, none⟩]⟩
  | _ => ⟨.error "unreachable", pre, []⟩

/-- `Value` handling: sibling keys of a committed value object, and the
emission decision at `EndObject`. -/
def valueStep (lib : IriLib) (c : JsonLdExpansionConverter)
    (t : Option String) (v : Option JsonLdValue) (l : Option String)
    (e : JsonEvent) : StepOut :=
  match e with
  | .objectKey key =>
    match c.expandIriC lib key false true with
    | .error m => ⟨.error m, [], []⟩
    | .ok none => ⟨.ok { c with state := .skip :: .object false :: c.state }, [], []⟩
    | .ok (some (.id i)) =>
      ⟨.ok { c with state := .skip :: .value t v l :: c.state }, [],
       [⟨"Objects with @value cannot contain properties, " ++ i ++ " found",
         some .invalidValueObject⟩]⟩
    | .ok (some (.keyword kw)) =>
      if kw = "value" then
        if v.isSome then
          ⟨.ok { c with state := .skip :: .value t v l :: c.state }, [],
           [⟨"@value cannot be set multiple times", some .invalidValueObject⟩]⟩
        else
          ⟨.ok { c with state := .valueValue t l :: c.state }, [], []⟩
      else if kw = "language" then
        if l.isSome then
          ⟨.ok { c with state := .skip :: .value t v l :: c.state }, [],
           [⟨"@language cannot be set multiple times", some .collidingKeywords⟩]⟩
        else
          ⟨.ok { c with state := .valueLanguage t v :: c.state }, [], []⟩
      else if kw = "type" then
        if t.isSome then
          ⟨.ok { c with state := .skip :: .value t v l :: c.state }, [],
           [⟨"@type cannot be set multiple times", some .collidingKeywords⟩]⟩
        else
          ⟨.ok { c with state := .valueType v l :: c.state }, [], []⟩
      else
        ⟨.ok { c with state := .skip :: .value t v l :: c.state }, [],
         [⟨"Unsupported JSON-Ld keyword inside of a @value: @" ++ kw, none⟩]⟩
  | .endObject =>
    let evs : List JsonLdEvent :=
      match v with
      | some vv => [.value vv t l]
      | none => []
    let errs : List Diag :=
      match v with
      | some vv =>
        (if l.isSome && t.isSome then
          [⟨"@type and @language cannot be used together", some .invalidValueObject⟩]
         else []) ++
        (if l.isSome && !(isStringValue vv) then
          [⟨"@language can be used only on a string @value", some .invalidLanguageTaggedValue⟩]
         else [])
      | none => []
    match popContextStack c.context with
    | .error m => ⟨.error m, evs, errs⟩
    | .ok ctxs => ⟨.ok { c with context := ctxs }, evs, errs⟩
  | _ => ⟨.error "unreachable", [], []⟩

/-- `ValueValue` handling: the scalar following a `@value` key. -/
def valueValueStep (c : JsonLdExpansionConverter)
    (t : Option String) (l : Option String) (e : JsonEvent) : StepOut :=
  match e with
  | .null => ⟨.ok { c with state := .value t none l :: c.state }, [], []⟩
  | .number v => ⟨.ok { c with state := .value t (some (.number v)) l :: c.state }, [], []⟩
  | .boolean b => ⟨.ok { c with state := .value t (some (.boolean b)) l :: c.state }, [], []⟩
  | .string v => ⟨.ok { c with state := .value t (some (.string v)) l :: c.state }, [], []⟩
  | .startArray =>
    ⟨.ok { c with state := .skipArray :: .value t none l :: c.state }, [],
     [⟨"@type cannot contain an array", some .invalidValueObjectValue⟩]⟩
  | .startObject =>
    ⟨.ok { c with state := .skip :: .value t none l :: c.state }, [],
     [⟨"@type cannot contain an object", some .invalidValueObjectValue⟩]⟩
  | _ => ⟨.error "unreachable", [], []⟩

/-- `ValueLanguage` handling: the scalar following a `@language` key. -/
def valueLanguageStep (c : JsonLdExpansionConverter)
    (t : Option String) (v : Option JsonLdValue) (e : JsonEvent) : StepOut :=
  match e with
  | .string language => ⟨.ok { c with state := .value t v (some language) :: c.state }, [], []⟩
  | .null | .number _ | .boolean _ =>
    ⟨.ok { c with state := .value t v none :: c.state }, [],
     [⟨"@language value must be a string", some .invalidLanguageTaggedString⟩]⟩
  | .startArray =>
    ⟨.ok { c with state := .skipArray :: .value t v none :: c.state }, [],
     [⟨"@language value must be a string", some .invalidLanguageTaggedString⟩]⟩
  | .startObject =>
    ⟨.ok { c with state := .skip :: .value t v none :: c.state }, [],
     [⟨"@language value must be a string", some .invalidLanguageTaggedString⟩]⟩
  | _ => ⟨.error "unreachable", [], []⟩

/-- `ValueType` handling: the scalar following a `@type` key inside a
value object. A string is stored verbatim, with no IRI expansion. -/
def valueTypeStep (c : JsonLdExpansionConverter)
    (v : Option JsonLdValue) (l : Option String) (e : JsonEvent) : StepOut :=
  match e with
  | .string t => ⟨.ok { c with state := .value (some t) v l :: c.state }, [], []⟩
  | .null | .number _ | .boolean _ =>
    ⟨.ok { c with state := .value none v l :: c.state }, [],
     [⟨"@type value must be a string when @value is present", some .invalidTypedValue⟩]⟩
  | .startArray =>
    ⟨.ok { c with state := .skipArray :: .value none v l :: c.state }, [],
     [⟨"@language value must be a string", some .invalidLanguageTaggedString⟩]⟩
  | .startObject =>
    ⟨.ok { c with state := .skip :: .value none v l :: c.state }, [],
     [⟨"@language value must be a string", some .invalidLanguageTaggedString⟩]⟩
  | _ => ⟨.error "unreachable", [], []⟩

/-- `Skip` / `SkipArray` handling. -/
def skipStep (c : JsonLdExpansionConverter) (isArr : Bool) (e : JsonEvent) : StepOut :=
  let re : List ExpState := if isArr then [.skipArray] else []
  match e with
  | .string _ | .number _ | .boolean _ | .null =>
    ⟨.ok { c with state := re ++ c.state }, [], []⟩
  | .endArray | .endObject => ⟨.ok c, [], []⟩
  | .startArray => ⟨.ok { c with state := .skipArray :: (re ++ c.state) }, [], []⟩
  | .startObject => ⟨.ok { c with state := .skip :: (re ++ c.state) }, [], []⟩
  | .objectKey _ => ⟨.ok { c with state := .skip :: .skip :: c.state }, [], []⟩
  | .eof => ⟨.error "unreachable", [], []⟩

/-- `after_buffering`: the `@context` subtree is complete; run the
context processor against the default context, replace the entry pushed
at object entry (decrement, push fresh entry with refcount 1) and
re-enter `ObjectStart`. -/
def afterBuffering (lib : IriLib) (c : JsonLdExpansionConverter)
    (node : JsonNode) (es : AfterToNode) : StepOut :=
  match es with
  | .context =>
    let pc := process_context lib defaultJsonLdContext node none [] false true
                .jsonLd1_0 c.lenient
    match pc.result with
    | .error m => ⟨.error m, [], pc.errors⟩
    | .ok newCtx =>
      match c.context with
      | [] => ⟨.error "Context stack must not be empty", [], pc.errors⟩
      | (ctx, n) :: cr =>
        if n = 0 then ⟨.error "attempt to subtract with overflow", [], pc.errors⟩
        else
          ⟨.ok { c with context := (newCtx, 1) :: (ctx, n - 1) :: cr,
                        state := .objectStart [] none :: c.state }, [], pc.errors⟩

/-- `after_to_node_event`: place a completed JSON value into its parent
node, or hand the finished subtree to `afterBuffering`. -/
def afterToNodeEvent (lib : IriLib) (c : JsonLdExpansionConverter)
    (stack : List JsonNode) (current_key : Option String)
    (end_state : AfterToNode) (newValue : JsonNode) : StepOut :=
  match stack with
  | JsonNode.object kvs :: srest =>
    match current_key with
    | none => ⟨.error "No current key", [], []⟩
    | some k =>
      let st := ExpState.toNode (.object (assocInsert kvs k newValue) :: srest) none end_state
      ⟨.ok { c with state := st :: c.state }, [], []⟩
  | JsonNode.array items :: srest =>
    let st := ExpState.toNode (.array (items ++ [newValue]) :: srest) current_key end_state
    ⟨.ok { c with state := st :: c.state }, [], []⟩
  | _ :: _ => ⟨.error "unreachable", [], []⟩
  | [] => afterBuffering lib c newValue end_state

/-- `ToNode` handling: buffer one token of a foreign JSON subtree. -/
def toNodeStep (lib : IriLib) (c : JsonLdExpansionConverter)
    (stack : List JsonNode) (current_key : Option String)
    (end_state : AfterToNode) (e : JsonEvent) : StepOut :=
  match e with
  | .string v => afterToNodeEvent lib c stack current_key end_state (.string v)
  | .number v => afterToNodeEvent lib c stack current_key end_state (.number v)
  | .boolean b => afterToNodeEvent lib c stack current_key end_state (.boolean b)
  | .null => afterToNodeEvent lib c stack current_key end_state .null
  | .endArray | .endObject =>
    match stack with
    | top :: srest => afterToNodeEvent lib c srest current_key end_state top
    | [] => ⟨.error "No closing object/array", [], []⟩
  | .startArray =>
    ⟨.ok { c with state := .toNode (.array [] :: stack) current_key end_state :: c.state }, [], []⟩
  | .startObject =>
    ⟨.ok { c with state := .toNode (.object [] :: stack) current_key end_state :: c.state }, [], []⟩
  | .objectKey k =>
    ⟨.ok { c with state := .toNode stack (some k) end_state :: c.state }, [], []⟩
  | .eof => ⟨.error "unreachable", [], []⟩

/-- Dispatch on the popped state (the big `match state` of
`convert_event`). The converter passed in already has the popped state
removed from its stack. -/
def convertEventState (lib : IriLib) (c : JsonLdExpansionConverter)
    (st : ExpState) (e : JsonEvent) : StepOut :=
  match st with
  | .element => elementStep c false e
  | .elementArray => elementStep c true e
  | .objectStart types id => objectStartStep lib c types id e
  | .objectType types id => objectTypeStep lib c types id false e
  | .objectTypeArray types id => objectTypeStep lib c types id true e
  | .objectId types id from_start => objectIdStep lib c types id from_start e
  | .object in_property => objectStep lib c in_property e
  | .value t v l => valueStep lib c t v l e
  | .valueValue t l => valueValueStep c t l e
  | .valueLanguage t v => valueLanguageStep c t v e
  | .valueType v l => valueTypeStep c v l e
  | .toNode stack current_key end_state => toNodeStep lib c stack current_key end_state e
  | .skip => skipStep c false e
  | .skipArray => skipStep c true e

/-- `JsonLdExpansionConverter::convert_event`: depth guard, `Eof`
handling, then pop the top state and dispatch. -/
def convert_event (lib : IriLib) (c : JsonLdExpansionConverter)
    (e : JsonEvent) : StepOut :=
  if c.state.length > 4096 then
    ⟨.ok c, [], [⟨"Too large state stack", none⟩]⟩
  else if e = .eof then
    ⟨.ok { c with is_end := true }, [], []⟩
  else
    match c.state with
    | [] => ⟨.error "Empty stack", [], []⟩
    | st :: rest => convertEventState lib { c with state := rest } st e

/-- Outcome of feeding a whole token list: final converter (or the
panic that stopped the run) plus all events and diagnostics appended
along the way. -/
structure RunOut where
  result : Except String JsonLdExpansionConverter
  events : List JsonLdEvent
  errors : List Diag

/-- Feed a list of tokens one `convert_event` call at a time,
accumulating the buffers and stopping at the first panic. -/
def runStream (lib : IriLib) (c : JsonLdExpansionConverter) :
    List JsonEvent → RunOut
  | [] => ⟨.ok c, [], []⟩
  | e :: es =>
    let out := convert_event lib c e
    match out.result with
    | .error m => ⟨.error m, out.events, out.errors⟩
    | .ok c2 =>
      let rest := runStream lib c2 es
      ⟨rest.result, out.events ++ rest.events, out.errors ++ rest.errors⟩

/-! ## Definitions used by the theorem statements -/

/-- The diagnostic of the state-stack depth guard. -/
def tooLargeDiag : Diag := ⟨"Too large state stack", none⟩

/-- `true` when `Except` holds a value, i.e. the modelled Rust code
returned normally instead of panicking. -/
def exceptIsOk {α : Type} : Except String α → Bool
  | .ok _ => true
  | .error _ => false

/-- Local-context object keys for which `process_context` has an
implemented branch (`@version`, `@base`, `@vocab`, `@protected`); every
other key, and `@import`, `@language`, `@direction`, `@propagate`, hits
an `unimplemented!()`. -/
def supportedCtxKey (k : String) : Bool :=
  k = "@version" || k = "@base" || k = "@vocab" || k = "@protected"

/-- One element of the normalised local-context sequence avoids every
`unimplemented!()`: it is not a string (remote context reference), and
if it is an object all its keys are supported. -/
def ctxElemSupported : JsonNode → Bool
  | .string _ => false
  | .object kvs => kvs.all fun kv => supportedCtxKey kv.1
  | _ => true

/-- The whole local context avoids every `unimplemented!()` of
`process_context`. -/
def localCtxSupported : JsonNode → Bool
  | .array es => es.all ctxElemSupported
  | n => ctxElemSupported n

/-- The string is `@`-prefixed and its remainder is either a reserved
keyword or purely ASCII alphabetic (steps 1-2 of `expand_iri` return
early exactly in this case). -/
def atKeywordLike (s : String) : Bool :=
  match stripAt s with
  | some suf => (matchKeyword suf).isSome || allAsciiAlpha suf
  | none => false

/-- Active context holding the single term definition
`ex ↦ { iri_mapping: http://example.com/, prefix: true }`. -/
def exTermCtx : JsonLdContext :=
  .mk none none none none [("ex", ⟨some "http://example.com/", true, false⟩)] none

/-- Active context whose vocabulary mapping is `http://v/`. -/
def vocabCtx : JsonLdContext :=
  .mk none none (some "http://v/") none [] none

/-! ## Helper lemmas -/

/-- A char list without a colon has no split point. -/
theorem splitOnceAux_of_no_colon (cs : List Char) (h : cs.contains ':' = false) :
    splitOnceAux cs = none := by
  induction cs with
  | nil => rfl
  | cons c cs ih =>
    simp only [List.contains_cons, Bool.or_eq_false_iff] at h
    unfold splitOnceAux
    rw [if_neg (by intro hc; subst hc; simp at h), ih h.2]

/-- Each implemented local-context key leaves `pcKey` panic-free. -/
theorem pcKey_ok (lib : IriLib) (mode : JsonLdProcessingMode) (lenient : Bool)
    (rcs : List String) (result : JsonLdContext) (k : String) (v : JsonNode)
    (h : supportedCtxKey k = true) :
    exceptIsOk (pcKey lib mode lenient rcs result k v).1 = true := by
  simp only [supportedCtxKey, Bool.or_eq_true, decide_eq_true_eq] at h
  unfold pcKey
  rcases h with ((h | h) | h) | h <;> subst h
  · rw [if_pos rfl]; rfl
  · rw [if_neg (by decide), if_neg (by decide), if_pos rfl]
    split
    · cases v <;> (repeat' split) <;> rfl
    · rfl
  · rw [if_neg (by decide), if_neg (by decide), if_neg (by decide), if_pos rfl]
    cases v <;> (repeat' split) <;> rfl
  · rw [if_neg (by decide), if_neg (by decide), if_neg (by decide), if_neg (by decide),
        if_neg (by decide), if_neg (by decide), if_neg (by decide), if_pos rfl]
    rfl

/-- An object-shaped local context with only implemented keys leaves the
key loop panic-free. -/
theorem pcKeys_ok (lib : IriLib) (mode : JsonLdProcessingMode) (lenient : Bool)
    (rcs : List String) (kvs : List (String × JsonNode)) :
    ∀ result : JsonLdContext, (∀ kv ∈ kvs, supportedCtxKey kv.1 = true) →
    exceptIsOk (pcKeys lib mode lenient rcs result kvs).1 = true := by
  induction kvs with
  | nil => intro result _; rfl
  | cons kv r ih =>
    intro result h
    obtain ⟨k, v⟩ := kv
    have hk := pcKey_ok lib mode lenient rcs result k v (h (k, v) (List.mem_cons_self _ _))
    obtain ⟨res2, hres⟩ : ∃ a, (pcKey lib mode lenient rcs result k v).1 = .ok a := by
      cases hx : (pcKey lib mode lenient rcs result k v).1 with
      | error m => rw [hx] at hk; simp [exceptIsOk] at hk
      | ok a => exact ⟨a, rfl⟩
    simp only [pcKeys]
    rw [hres]
    exact ih res2 fun kv2 hm => h kv2 (List.mem_cons_of_mem _ hm)

/-- Every supported element of the local-context sequence is processed
panic-free. -/
theorem pcElem_ok (lib : IriLib) (mode : JsonLdProcessingMode) (lenient : Bool)
    (rcs : List String) (op : Bool) (actx : JsonLdContext) (result : JsonLdContext)
    (e : JsonNode) (h : ctxElemSupported e = true) :
    exceptIsOk (pcElem lib mode lenient rcs op actx result e).1 = true := by
  cases e with
  | string s => simp [ctxElemSupported] at h
  | object kvs =>
    simp only [ctxElemSupported, List.all_eq_true] at h
    exact pcKeys_ok lib mode lenient rcs kvs result fun kv hm => h kv hm
  | null => rfl
  | number s => rfl
  | boolean b => rfl
  | array l => rfl

/-- Folding supported elements is panic-free. -/
theorem pcElems_ok (lib : IriLib) (mode : JsonLdProcessingMode) (lenient : Bool)
    (rcs : List String) (op : Bool) (actx : JsonLdContext) (es : List JsonNode) :
    ∀ result : JsonLdContext, (∀ e ∈ es, ctxElemSupported e = true) →
    exceptIsOk (pcElems lib mode lenient rcs op actx result es).1 = true := by
  induction es with
  | nil => intro result _; rfl
  | cons e es ih =>
    intro result h
    have he := pcElem_ok lib mode lenient rcs op actx result e (h e (List.mem_cons_self _ _))
    obtain ⟨res2, hres⟩ : ∃ a, (pcElem lib mode lenient rcs op actx result e).1 = .ok a := by
      cases hx : (pcElem lib mode lenient rcs op actx result e).1 with
      | error m => rw [hx] at he; simp [exceptIsOk] at he
      | ok a => exact ⟨a, rfl⟩
    simp only [pcElems]
    rw [hres]
    exact ih res2 fun e2 hm => h e2 (List.mem_cons_of_mem _ hm)

/-- One `convert_event` call on an over-deep state stack drops the token
with the fixed diagnostic. -/
theorem guardStep (lib : IriLib) (c : JsonLdExpansionConverter) (e : JsonEvent)
    (h : c.state.length > 4096) :
    convert_event lib c e = ⟨.ok c, [], [tooLargeDiag]⟩ := by
  unfold convert_event
  rw [if_pos h]
  rfl

/-- Composition of `runStream` over a head token that returns normally. -/
theorem runStreamConsOk (lib : IriLib) (c : JsonLdExpansionConverter) (e : JsonEvent)
    (es : List JsonEvent) (c2 : JsonLdExpansionConverter)
    (evs : List JsonLdEvent) (errs : List Diag)
    (h : convert_event lib c e = ⟨.ok c2, evs, errs⟩) :
    runStream lib c (e :: es)
      = ⟨(runStream lib c2 es).result, evs ++ (runStream lib c2 es).events,
         errs ++ (runStream lib c2 es).errors⟩ := by
  simp only [runStream]
  rw [h]

/-- A wedged converter (state stack over the cap) drops every further
token, emitting one diagnostic per token and never changing. -/
theorem guardDrop (lib : IriLib) (l : List JsonEvent) :
    ∀ c : JsonLdExpansionConverter, c.state.length > 4096 →
    runStream lib c l = ⟨.ok c, [], List.replicate l.length tooLargeDiag⟩ := by
  induction l with
  | nil => intro c _; rfl
  | cons e es ih =>
    intro c h
    rw [runStreamConsOk lib c e es c [] [tooLargeDiag] (guardStep lib c e h), ih c h]
    rfl

/-- A `StartArray` token grows an all-`ElementArray` state stack by one
while the guard is not tripped. -/
theorem arrStep (lib : IriLib) (ctxs : List (JsonLdContext × Nat)) (ie len : Bool)
    (k : Nat) (h : k + 1 ≤ 4096) :
    convert_event lib ⟨List.replicate (k+1) .elementArray, ctxs, ie, len⟩ .startArray
      = ⟨.ok ⟨List.replicate (k+1+1) .elementArray, ctxs, ie, len⟩, [], []⟩ := by
  have hlen : ¬((⟨List.replicate (k+1) ExpState.elementArray, ctxs, ie, len⟩ :
      JsonLdExpansionConverter).state.length > 4096) := by
    show ¬((List.replicate (k+1) ExpState.elementArray).length > 4096)
    rw [List.length_replicate]
    omega
  unfold convert_event
  rw [if_neg hlen, if_neg (by simp)]
  rfl

/-- Feeding `StartArray` tokens up to depth 4097 and then a balanced
tail of `EndArray`s plus `Eof`: the tail and the `Eof` are all dropped
by the guard. -/
theorem arrGrow (lib : IriLib) (ctxs : List (JsonLdContext × Nat)) (ie len : Bool) :
    ∀ n k : Nat, k + n = 4096 →
    runStream lib ⟨List.replicate (k+1) .elementArray, ctxs, ie, len⟩
      (List.replicate n .startArray ++ (List.replicate 4097 .endArray ++ [.eof]))
      = ⟨.ok ⟨List.replicate 4097 .elementArray, ctxs, ie, len⟩, [],
         List.replicate 4098 tooLargeDiag⟩ := by
  intro n
  induction n with
  | zero =>
    intro k hk
    have hk2 : k = 4096 := by omega
    subst hk2
    rw [List.replicate_zero, List.nil_append]
    show runStream lib ⟨List.replicate 4097 ExpState.elementArray, ctxs, ie, len⟩
        (List.replicate 4097 JsonEvent.endArray ++ [JsonEvent.eof]) = _
    have hlen : (⟨List.replicate 4097 ExpState.elementArray, ctxs, ie, len⟩ :
        JsonLdExpansionConverter).state.length > 4096 := by
      show (List.replicate 4097 ExpState.elementArray).length > 4096
      rw [List.length_replicate]
      omega
    rw [guardDrop lib (List.replicate 4097 JsonEvent.endArray ++ [JsonEvent.eof])
        ⟨List.replicate 4097 ExpState.elementArray, ctxs, ie, len⟩ hlen]
    have hl : (List.replicate 4097 JsonEvent.endArray ++ [JsonEvent.eof]).length = 4098 := by
      rw [List.length_append, List.length_replicate]
      rfl
    rw [hl]
  | succ n ih =>
    intro k hk
    show runStream lib ⟨List.replicate (k+1) ExpState.elementArray, ctxs, ie, len⟩
        (JsonEvent.startArray ::
          (List.replicate n JsonEvent.startArray ++
            (List.replicate 4097 JsonEvent.endArray ++ [JsonEvent.eof]))) = _
    rw [runStreamConsOk lib _ _ _ _ _ _ (arrStep lib ctxs ie len k (by omega))]
    rw [ih (k+1) (by omega)]
    rfl

/-! ## Claim theorems -/

/-- C1 (counterexample): the claim says `process_context` never fails
hard for every local context, including a string context reference; but
on the local context `"http://example.com/ctx"` (a remote context
reference) the processor hits step 5.2's `unimplemented!()` and
panics. The same happens for `@import`, `@language`, `@direction`,
`@propagate` entries and ordinary term-definition keys. -/
theorem c1_counterexample :
    (process_context idIriLib (JsonLdContext.new_empty none)
      (.string "http://example.com/ctx") none [] false true .jsonLd1_1 false).result
    = .error "not implemented" := rfl

/-- C1 (amended): for every parameter combination and every local
context free of the unimplemented constructs (no string context
reference and, inside objects, no `@import`, `@language`, `@direction`,
`@propagate` or ordinary term-definition key), `process_context`
returns normally, reporting violations only through the returned
diagnostics. -/
theorem c1_process_context_no_hard_failure_amended (lib : IriLib)
    (actx : JsonLdContext) (lctx : JsonNode) (bu : Option String)
    (rcs : List String) (op pr : Bool) (mode : JsonLdProcessingMode) (lenient : Bool)
    (h : localCtxSupported lctx = true) :
    exceptIsOk (process_context lib actx lctx bu rcs op pr mode lenient).result = true := by
  unfold process_context
  simp only
  apply pcElems_ok
  cases lctx with
  | array es =>
    simp only [localCtxSupported, List.all_eq_true] at h
    intro e hm
    exact h e hm
  | null => intro e hm; simp only [List.mem_singleton] at hm; subst hm; rfl
  | string s => simp [localCtxSupported, ctxElemSupported] at h
  | number s => intro e hm; simp only [List.mem_singleton] at hm; subst hm; rfl
  | boolean b => intro e hm; simp only [List.mem_singleton] at hm; subst hm; rfl
  | object kvs =>
    intro e hm
    simp only [List.mem_singleton] at hm
    subst hm
    exact h

/-- C1 (witness): a supported object context (`@version`, `@base`,
`@vocab`, `@protected` keys, one of them with an invalid value) is
processed without a panic. -/
theorem c1_witness : localCtxSupported
      (.object [("@version", .number "1.0"), ("@base", .string "b"), ("@vocab", .null),
                ("@protected", .boolean true)]) = true
    ∧ exceptIsOk (process_context idIriLib (JsonLdContext.new_empty none)
        (.object [("@version", .number "1.0"), ("@base", .string "b"), ("@vocab", .null),
                  ("@protected", .boolean true)])
        none [] false true .jsonLd1_1 false).result = true :=
  ⟨by decide,
   c1_process_context_no_hard_failure_amended idIriLib (JsonLdContext.new_empty none) _
     none [] false true .jsonLd1_1 false (by decide)⟩

/-- C2 (code bug): the constructor creates the single context stack
entry with refcount 0, not 1 as the claim (and the converter's own
"must not be empty" expectations) requires. Consequently after the
complete document `{}` the context stack is empty (size 0, not 1), and
on the complete well-formed document `[{}, {}]` the converter panics at
the second `StartObject` when `push_same_context` finds the context
stack empty. -/
theorem c2_context_stack_refcount_code_bug :
    (JsonLdExpansionConverter.new none false).context = [(JsonLdContext.new_empty none, 0)]
    ∧ runStream idIriLib (JsonLdExpansionConverter.new none false)
        [.startObject, .endObject, .eof]
      = ⟨.ok ⟨[], [], true, false⟩, [.startObject [], .endObject], []⟩
    ∧ runStream idIriLib (JsonLdExpansionConverter.new none false)
        [.startArray, .startObject, .endObject, .startObject]
      = ⟨.error "The context stack must not be empty", [.startObject [], .endObject], []⟩ :=
  ⟨rfl, rfl, rfl⟩

/-- C3 (code bug): with the active context defining the prefix term
`ex ↦ { iri_mapping: http://example.com/, prefix: true }`, the claim
(and W3C step 6.4, which the source cites) requires
`expand_iri("ex:foo")` to return `Id("http://example.com/foo")`; the
code looks up the whole string `"ex:foo"` in `term_definitions` instead
of the prefix `"ex"`, so the definition is never found and the string
falls through to `Id("ex:foo")` (it parses as an absolute IRI under the
scheme `ex`; with `vocab` and `document_relative` false the result is
`Id("ex:foo")` regardless of the IRI library's verdict). -/
theorem c3_compact_iri_code_bug :
    assocGet exTermCtx.term_definitions "ex"
      = some ⟨some "http://example.com/", true, false⟩
    ∧ expand_iri idIriLib false exTermCtx "ex:foo" false false = some (.id "ex:foo") :=
  ⟨rfl, rfl⟩

/-- C4 (counterexample): `"@base"` contains no colon and matches no term
definition of the empty context, yet `expand_iri` returns
`Keyword("base")`, not `Id("@base")`: the reserved-keyword handling of
step 1 runs before everything else. -/
theorem c4_counterexample :
    ("@base".data.contains ':') = false
    ∧ assocGet (JsonLdContext.new_empty none).term_definitions "@base" = none
    ∧ expand_iri idIriLib false (JsonLdContext.new_empty none) "@base" false false
        = some (.keyword "base") :=
  ⟨by decide, rfl, rfl⟩

/-- C4 (amended): for every string with no colon, no matching term
definition, and which is not an `@`-prefixed string whose remainder is
a reserved keyword or consists only of ASCII letters (possibly empty),
`expand_iri(s, false, false)` returns `Id(s)` unchanged, for every IRI
library, `lenient` flag and active context. -/
theorem c4_expand_iri_identity_amended (lib : IriLib) (lenient : Bool)
    (ctx : JsonLdContext) (s : String)
    (h1 : s.data.contains ':' = false)
    (h2 : assocGet ctx.term_definitions s = none)
    (h3 : atKeywordLike s = false) :
    expand_iri lib lenient ctx s false false = some (.id s) := by
  have hsplit : splitOnceColon s = none := by
    unfold splitOnceColon
    rw [splitOnceAux_of_no_colon s.data h1]
  have hat : expandIriAt s = none := by
    unfold expandIriAt
    unfold atKeywordLike at h3
    cases hs : stripAt s with
    | none => rfl
    | some suf =>
      rw [hs] at h3
      simp only [Bool.or_eq_false_iff] at h3
      rcases h3 with ⟨hmk, hal⟩
      cases hmk2 : matchKeyword suf with
      | some kw => rw [hmk2] at hmk; simp at hmk
      | none => simp [hmk2, hal]
  unfold expand_iri
  rw [hat]
  unfold expandIriRest
  rw [h2, hsplit]
  unfold expandIriTail expandIriDocRel
  simp

/-- C4 (witness): `"hello"` satisfies the amended hypotheses and
expands to itself. -/
theorem c4_witness : ("hello".data.contains ':' = false)
    ∧ assocGet (JsonLdContext.new_empty none).term_definitions "hello" = none
    ∧ atKeywordLike "hello" = false
    ∧ expand_iri idIriLib false (JsonLdContext.new_empty none) "hello" false false
        = some (.id "hello") :=
  ⟨by decide, rfl, by decide,
   c4_expand_iri_identity_amended idIriLib false (JsonLdContext.new_empty none) "hello"
     (by decide) rfl (by decide)⟩

/-- C5 (counterexample): for the value object
`{"@value": null, "@language": "en", "@type": "t"}` both `@language`
and `@type` are collected, yet the run produces no diagnostic at all
(and no event): the claim says an `invalid value object` diagnostic is
emitted whenever both were collected, but the code performs the
end-of-object checks only when a non-null `@value` is present. -/
theorem c5_counterexample :
    runStream idIriLib (JsonLdExpansionConverter.new none false)
      [.startObject, .objectKey "@value", .null, .objectKey "@language", .string "en",
       .objectKey "@type", .string "t", .endObject, .eof]
    = ⟨.ok ⟨[], [], true, false⟩, [], []⟩ := rfl

/-- C5 (amended): at the `EndObject` of a value object, exactly one
`Value{value, type, language}` event is emitted iff a non-null `@value`
was collected; when a non-null value is present, collecting both
`@language` and `@type` adds an `invalid value object` diagnostic and a
non-string value with `@language` adds an `invalid language-tagged
value` diagnostic; a null `@value` suppresses the event and these
end-of-object diagnostics. -/
theorem c5_value_end_object_amended (lib : IriLib) (t : Option String)
    (v : Option JsonLdValue) (l : Option String) (rest : List ExpState)
    (ctx : JsonLdContext) (n : Nat) (cr : List (JsonLdContext × Nat)) (ie len : Bool)
    (h : rest.length + 1 ≤ 4096) :
    (∀ vv, v = some vv →
      (convert_event lib ⟨.value t v l :: rest, (ctx, n) :: cr, ie, len⟩ .endObject).events
        = [.value vv t l])
    ∧ (v = none →
      (convert_event lib ⟨.value t v l :: rest, (ctx, n) :: cr, ie, len⟩ .endObject).events = []
      ∧ (convert_event lib ⟨.value t v l :: rest, (ctx, n) :: cr, ie, len⟩ .endObject).errors
          = [])
    ∧ (∀ vv, v = some vv → l.isSome = true → t.isSome = true →
      (⟨"@type and @language cannot be used together", some .invalidValueObject⟩ : Diag)
        ∈ (convert_event lib ⟨.value t v l :: rest, (ctx, n) :: cr, ie, len⟩ .endObject).errors)
    ∧ (∀ vv, v = some vv → l.isSome = true → isStringValue vv = false →
      (⟨"@language can be used only on a string @value",
        some .invalidLanguageTaggedValue⟩ : Diag)
        ∈ (convert_event lib ⟨.value t v l :: rest, (ctx, n) :: cr, ie, len⟩
            .endObject).errors) := by
  have step : convert_event lib ⟨.value t v l :: rest, (ctx, n) :: cr, ie, len⟩ .endObject
      = valueStep lib ⟨rest, (ctx, n) :: cr, ie, len⟩ t v l .endObject := by
    unfold convert_event
    rw [if_neg (by show ¬((ExpState.value t v l :: rest).length > 4096); simp; omega),
        if_neg (by simp)]
    rfl
  rw [step]
  unfold valueStep
  rcases hpc : popContextStack ((ctx, n) :: cr) with m | ctxs <;>
    refine ⟨fun vv hv => ?_, fun hv => ?_, fun vv hv h2 h3 => ?_, fun vv hv h2 h3 => ?_⟩ <;>
      subst hv <;> simp_all [isStringValue]

/-- C5 (witness): a value object carrying `@value: 42`, `@type` and
`@language` gets the `invalid value object` diagnostic at its end. -/
theorem c5_witness : (⟨"@type and @language cannot be used together",
      some .invalidValueObject⟩ : Diag)
    ∈ (convert_event idIriLib
        ⟨[.value (some "T") (some (.number "42")) (some "en")],
         [(JsonLdContext.new_empty none, 1)], false, false⟩ .endObject).errors :=
  (c5_value_end_object_amended idIriLib (some "T") (some (.number "42")) (some "en") []
    (JsonLdContext.new_empty none) 1 [] false false (by decide)).2.2.1
    (.number "42") rfl rfl rfl

/-- C6 (counterexample): feeding the balanced, well-formed token stream
of 4097 nested `[`s, 4097 `]`s and a final `Eof` wedges the converter:
once the state stack holds 4097 entries the guard drops every further
token — including every closing bracket, so the stack never shrinks,
and including the final `Eof` — each with a diagnostic. The final
converter has `is_end = false`: `Eof` did not mark it finished. -/
theorem c6_counterexample :
    runStream idIriLib (JsonLdExpansionConverter.new none false)
      (JsonEvent.startArray :: (List.replicate 4096 JsonEvent.startArray ++
        (List.replicate 4097 JsonEvent.endArray ++ [JsonEvent.eof])))
    = ⟨.ok ⟨List.replicate 4097 .elementArray, [(JsonLdContext.new_empty none, 0)],
            false, false⟩,
       [], List.replicate 4098 tooLargeDiag⟩ := by
  have h1 : convert_event idIriLib (JsonLdExpansionConverter.new none false) .startArray
      = ⟨.ok ⟨[.elementArray], [(JsonLdContext.new_empty none, 0)], false, false⟩, [], []⟩ := rfl
  rw [runStreamConsOk idIriLib _ _ _ _ _ _ h1]
  rw [show ([ExpState.elementArray] : List ExpState)
        = List.replicate (0+1) ExpState.elementArray from rfl]
  rw [arrGrow idIriLib [(JsonLdContext.new_empty none, 0)] false false 4096 0 (by omega)]
  rfl

/-- C6 (amended): whenever the state stack holds at most 4096 entries,
feeding `Eof` marks the converter finished (`is_end` becomes true),
changes nothing else and emits no events and no diagnostics; with a
deeper stack the `Eof` token is dropped by the guard like any other
token and the converter is not marked finished. -/
theorem c6_eof_marks_end_amended (lib : IriLib) (c : JsonLdExpansionConverter)
    (h : c.state.length ≤ 4096) :
    convert_event lib c .eof = ⟨.ok { c with is_end := true }, [], []⟩ := by
  unfold convert_event
  rw [if_neg (by omega), if_pos rfl]

/-- C6 (witness): `Eof` on the freshly constructed converter. -/
theorem c6_witness : ((JsonLdExpansionConverter.new none false).state.length ≤ 4096)
    ∧ convert_event idIriLib (JsonLdExpansionConverter.new none false) .eof
        = ⟨.ok ⟨[.element], [(JsonLdContext.new_empty none, 0)], true, false⟩, [], []⟩ :=
  ⟨by decide, c6_eof_marks_end_amended idIriLib (JsonLdExpansionConverter.new none false)
    (by decide)⟩

/-- C7: for every token (including `Eof`) and every converter whose
state stack holds more than 4096 entries, `convert_event` appends
exactly one diagnostic, emits no event, and leaves the converter —
state stack and context stack included — unchanged. -/
theorem c7_stack_guard (lib : IriLib) (c : JsonLdExpansionConverter) (e : JsonEvent)
    (h : c.state.length > 4096) :
    convert_event lib c e = ⟨.ok c, [], [⟨"Too large state stack", none⟩]⟩ := by
  unfold convert_event
  rw [if_pos h]

/-- C7 (witness): a converter with 4097 states drops a `Null` token. -/
theorem c7_witness : ((⟨List.replicate 4097 .element, [], false, false⟩ :
      JsonLdExpansionConverter).state.length > 4096)
    ∧ convert_event idIriLib ⟨List.replicate 4097 .element, [], false, false⟩ .null
        = ⟨.ok ⟨List.replicate 4097 .element, [], false, false⟩, [],
           [⟨"Too large state stack", none⟩]⟩ :=
  ⟨by show (List.replicate 4097 ExpState.element).length > 4096;
      rw [List.length_replicate]; omega,
   c7_stack_guard idIriLib ⟨List.replicate 4097 .element, [], false, false⟩ .null
     (by show (List.replicate 4097 ExpState.element).length > 4096;
         rw [List.length_replicate]; omega)⟩

/-- C8: the token stream of `{"@value": "x", "@value": "y"}` produces
exactly one `Value` event with value `String("x")`, no type and no
language, together with exactly one diagnostic whose code is
`invalid value object`. -/
theorem c8_colliding_value_scenario :
    runStream idIriLib (JsonLdExpansionConverter.new none false)
      [.startObject, .objectKey "@value", .string "x", .objectKey "@value", .string "y",
       .endObject, .eof]
    = ⟨.ok ⟨[], [], true, false⟩, [.value (.string "x") none none],
       [⟨"@value cannot be set multiple times", some .invalidValueObject⟩]⟩ := rfl

/-- C9: the string following a `@type` key inside a value object is
stored verbatim into the `Value` event's type slot — for every string,
every context stack and every IRI library, with no IRI expansion —
whereas (second and third conjuncts, same context with vocabulary
mapping `http://v/`) a node object's `@type` string `"x"` is expanded
with `vocab = true` to `http://v/x` while the value object's `@type`
string `"x"` stays `"x"`. -/
theorem c9_value_type_verbatim (lib : IriLib) (v : Option JsonLdValue)
    (l : Option String) (rest : List ExpState) (ctxs : List (JsonLdContext × Nat))
    (ie len : Bool) (t : String) (h : rest.length + 1 ≤ 4096) :
    (convert_event lib ⟨.valueType v l :: rest, ctxs, ie, len⟩ (.string t)
      = ⟨.ok ⟨.value (some t) v l :: rest, ctxs, ie, len⟩, [], []⟩)
    ∧ (convert_event idIriLib ⟨[.objectType [] none], [(vocabCtx, 1)], false, false⟩
        (.string "x")
      = ⟨.ok ⟨[.objectStart ["http://v/x"] none], [(vocabCtx, 1)], false, false⟩, [], []⟩)
    ∧ (convert_event idIriLib ⟨[.valueType none none], [(vocabCtx, 1)], false, false⟩
        (.string "x")
      = ⟨.ok ⟨[.value (some "x") none none], [(vocabCtx, 1)], false, false⟩, [], []⟩) := by
  refine ⟨?_, rfl, rfl⟩
  unfold convert_event
  rw [if_neg (by show ¬((ExpState.valueType v l :: rest).length > 4096); simp; omega),
      if_neg (by simp)]
  rfl

/-- C9 (witness): the general conjunct at a concrete input. -/
theorem c9_witness : convert_event idIriLib
      ⟨[.valueType none none], [(vocabCtx, 1)], false, false⟩ (.string "ex:foo")
    = ⟨.ok ⟨[.value (some "ex:foo") none none], [(vocabCtx, 1)], false, false⟩, [], []⟩ :=
  (c9_value_type_verbatim idIriLib none none [] [(vocabCtx, 1)] false false "ex:foo"
    (by decide)).1

/-- C10: every non-string `@id` value (null, number, boolean, array or
object) makes the converter emit exactly one diagnostic — carrying the
code `invalid language-tagged string`, not an id-specific code — with
no `Id` event and no other event, and continue object processing (the
enclosing `ObjectStart`/`Object` state is re-entered, with a
`Skip`/`SkipArray` pushed for the composite values). -/
theorem c10_invalid_id_diagnostic (lib : IriLib) (types : List String)
    (id : Option String) (fs : Bool) (rest : List ExpState)
    (ctxs : List (JsonLdContext × Nat)) (ie len : Bool)
    (h : rest.length + 1 ≤ 4096) :
    (convert_event lib ⟨.objectId types id fs :: rest, ctxs, ie, len⟩ .null
      = ⟨.ok ⟨(if fs then ExpState.objectStart types id else .object false) :: rest,
              ctxs, ie, len⟩, [], [idMustBeString]⟩)
    ∧ (∀ s, convert_event lib ⟨.objectId types id fs :: rest, ctxs, ie, len⟩ (.number s)
      = ⟨.ok ⟨(if fs then ExpState.objectStart types id else .object false) :: rest,
              ctxs, ie, len⟩, [], [idMustBeString]⟩)
    ∧ (∀ b, convert_event lib ⟨.objectId types id fs :: rest, ctxs, ie, len⟩ (.boolean b)
      = ⟨.ok ⟨(if fs then ExpState.objectStart types id else .object false) :: rest,
              ctxs, ie, len⟩, [], [idMustBeString]⟩)
    ∧ (convert_event lib ⟨.objectId types id fs :: rest, ctxs, ie, len⟩ .startArray
      = ⟨.ok ⟨.skipArray :: (if fs then ExpState.objectStart types id else .object false)
                :: rest, ctxs, ie, len⟩, [], [idMustBeString]⟩)
    ∧ (convert_event lib ⟨.objectId types id fs :: rest, ctxs, ie, len⟩ .startObject
      = ⟨.ok ⟨.skip :: (if fs then ExpState.objectStart types id else .object false)
                :: rest, ctxs, ie, len⟩, [], [idMustBeString]⟩)
    ∧ idMustBeString.code = some .invalidLanguageTaggedString := by
  refine ⟨?_, fun s => ?_, fun b => ?_, ?_, ?_, rfl⟩ <;>
  · unfold convert_event
    rw [if_neg (by show ¬((ExpState.objectId types id fs :: rest).length > 4096); simp; omega),
        if_neg (by simp)]
    rfl

/-- C10 (witness): a `Null` token for `@id` at the start of an object. -/
theorem c10_witness : convert_event idIriLib
      ⟨[.objectId [] none true], [(JsonLdContext.new_empty none, 1)], false, false⟩ .null
    = ⟨.ok ⟨[.objectStart [] none], [(JsonLdContext.new_empty none, 1)], false, false⟩,
       [], [idMustBeString]⟩ :=
  (c10_invalid_id_diagnostic idIriLib [] none true [] [(JsonLdContext.new_empty none, 1)]
    false false (by decide)).1
